import Mathlib

/-!
Verification of the vies-proxy core (src/index.js, second/latest variant,
lines 124-342) against its natural-language specification.

The JavaScript source is shallowly embedded:
* strings are plain Lean strings operated on as lists of characters;
* the JavaScript case conversions and character classes are modelled on
  the Basic Latin (ASCII) range, which is the range every regular
  expression in the source (`[A-Z]`, `[0-9A-Z+*.]`, `\w`, `true|false`)
  actually tests;
* the tree produced by fast-xml-parser is modelled by the inductive
  `JVal` (text, numeric, boolean and object nodes, the shapes the parser
  produces for the responses at issue); `parseSOAP` takes the parsed
  tree together with the raw body text, exactly the two views the source
  consults;
* JavaScript truthiness, `||` chains, `String(...)` coercion and thrown
  errors are made explicit (`jsTruthy`, `jsOrV`, `jsToString`, `Except`).
-/

/-! ## Character-level helpers -/

/-- The character class `\s` of JavaScript regular expressions
(WhiteSpace plus LineTerminator), as used by `replace(/[\s.-]/g,"")`,
by `trim()` and by `\s*` in the raw-text scan. -/
def isJsSpace (c : Char) : Bool :=
  let n := c.toNat
  n = 32 || n = 9 || n = 10 || n = 11 || n = 12 || n = 13 ||
  n = 0xA0 || n = 0x1680 || (0x2000 ≤ n && n ≤ 0x200A) ||
  n = 0x2028 || n = 0x2029 || n = 0x202F || n = 0x205F || n = 0x3000 || n = 0xFEFF

/-- ASCII lower-casing of a character (the fragment of
`String.prototype.toLowerCase` exercised by the source's comparisons). -/
def lowerC (c : Char) : Char :=
  match c with
  | 'A' => 'a' | 'B' => 'b' | 'C' => 'c' | 'D' => 'd' | 'E' => 'e'
  | 'F' => 'f' | 'G' => 'g' | 'H' => 'h' | 'I' => 'i' | 'J' => 'j'
  | 'K' => 'k' | 'L' => 'l' | 'M' => 'm' | 'N' => 'n' | 'O' => 'o'
  | 'P' => 'p' | 'Q' => 'q' | 'R' => 'r' | 'S' => 's' | 'T' => 't'
  | 'U' => 'u' | 'V' => 'v' | 'W' => 'w' | 'X' => 'x' | 'Y' => 'y'
  | 'Z' => 'z'
  | other => other

/-- ASCII upper-casing of a character (the fragment of
`String.prototype.toUpperCase` exercised by the source). -/
def upperC (c : Char) : Char :=
  match c with
  | 'a' => 'A' | 'b' => 'B' | 'c' => 'C' | 'd' => 'D' | 'e' => 'E'
  | 'f' => 'F' | 'g' => 'G' | 'h' => 'H' | 'i' => 'I' | 'j' => 'J'
  | 'k' => 'K' | 'l' => 'L' | 'm' => 'M' | 'n' => 'N' | 'o' => 'O'
  | 'p' => 'P' | 'q' => 'Q' | 'r' => 'R' | 's' => 'S' | 't' => 'T'
  | 'u' => 'U' | 'v' => 'V' | 'w' => 'W' | 'x' => 'X' | 'y' => 'Y'
  | 'z' => 'Z'
  | other => other

/-- Lower-case every character of a list (model of `toLowerCase` on the
strings the source compares). -/
def lowerL (l : List Char) : List Char := l.map lowerC

/-- Upper-case every character of a list (model of `toUpperCase`). -/
def upperL (l : List Char) : List Char := l.map upperC

/-- The character class `[A-Z]` of the country-code regex. -/
def isUpperAlpha (c : Char) : Bool := 65 ≤ c.toNat && c.toNat ≤ 90

/-- The character class `[0-9A-Z+*.]` of the vat-number regex. -/
def isVatChar (c : Char) : Bool :=
  c.isDigit || isUpperAlpha c || c = '+' || c = '*' || c = '.'

/-- Drop leading characters satisfying `p` from the end of a list
(the trailing half of `trim()`), keeping interior characters. -/
def dropTrail (p : Char → Bool) : List Char → List Char
  | [] => []
  | c :: rest =>
    let r := dropTrail p rest
    if r.isEmpty && p c then [] else c :: r

/-- Model of `String.prototype.trim`: strip `\s` characters from both
ends. -/
def trimL (l : List Char) : List Char :=
  dropTrail isJsSpace (l.dropWhile isJsSpace)

/-! ## The VAT identifier normalizer — `parseVat`, src/index.js:152-158 -/

/-- The character filter of `replace(/[\s.-]/g,"")`: keep a character
iff it is not whitespace, a period or a hyphen. -/
def keptByStrip (c : Char) : Bool := !(isJsSpace c || c = '.' || c = '-')

/-- `replace(/^EU/,"")`: drop one leading literal `EU`. -/
def dropEU : List Char → List Char
  | 'E' :: 'U' :: rest => rest
  | l => l

/-- The cleaning pipeline of `parseVat`:
`(raw||"").toUpperCase().replace(/[\s.-]/g,"").replace(/^EU/,"")`. -/
def cleanedVat (raw : String) : List Char :=
  dropEU ((raw.data.map upperC).filter keptByStrip)

/-- The test `/^[A-Z]{2}$/.test(cc)` on the 2-character slice. -/
def regexCC (cc : List Char) : Bool :=
  cc.length == 2 && cc.all isUpperAlpha

/-- The test `/^[0-9A-Z+*.]{2,}$/.test(num)` on the remainder. -/
def regexNum (num : List Char) : Bool :=
  decide (2 ≤ num.length) && num.all isVatChar

/-- `parseVat` (src/index.js:152-158): clean the raw string, split it
into a 2-character country code and the remainder, validate both, and
return the pair (`countryCode`, `vatNumber`) or `null`. -/
def parseVat (raw : String) : Option (String × String) :=
  let cleaned := cleanedVat raw
  let cc := cleaned.take 2
  let num := cleaned.drop 2
  if regexCC cc && regexNum num then
    some (String.mk cc, String.mk num)
  else
    none

/-- Modelled from the spec's words for claim C1 (the shape against which
`parseVat` is compared): after cleaning, the input consists of two ASCII
uppercase letters followed by at least two characters of `[0-9A-Z+*.]`. -/
def specVatShape (raw : String) : Bool :=
  match cleanedVat raw with
  | a :: b :: rest =>
    isUpperAlpha a && isUpperAlpha b &&
    decide (2 ≤ rest.length) && rest.all isVatChar
  | _ => false

/-! ## The parsed-XML tree model

fast-xml-parser (with `ignoreAttributes: false`) turns the SOAP body
into a nest of plain objects whose leaf values are strings, numbers or
booleans.  `JVal` is that value universe; `JFields` is the key/value
list of an object node in insertion order. -/

mutual

inductive JVal where
  | str : String → JVal
  | num : Int → JVal
  | bool : Bool → JVal
  | obj : JFields → JVal

inductive JFields where
  | nil : JFields
  | cons : String → JVal → JFields → JFields

end

/-- JavaScript truthiness of a tree value (`undefined`/`null` is
represented by `Option.none` at use sites). -/
def jsTruthy : JVal → Bool
  | .str s => !s.isEmpty
  | .num n => n != 0
  | .bool b => b
  | .obj _ => true

/-- JavaScript `String(...)` coercion of a tree value. -/
def jsToString : JVal → String
  | .str s => s
  | .num n => toString n
  | .bool b => if b then "true" else "false"
  | .obj _ => "[object Object]"

/-- `Object.keys` view of a value: the fields of an object node, no
(alphabetic) keys otherwise. -/
def jkeys : JVal → JFields
  | .obj fs => fs
  | _ => .nil

/-- JavaScript `a || b` where `a` may be `undefined` and `b` is a
value: the first operand if truthy, otherwise the second. -/
def jsOrV (a : Option JVal) (b : JVal) : JVal :=
  match a with
  | some v => if jsTruthy v then v else b
  | none => b

/-- JavaScript `a || b` where both operands may be `undefined`. -/
def jsOrO (a b : Option JVal) : Option JVal :=
  match a with
  | some v => if jsTruthy v then some v else b
  | none => b

/-- Keep a looked-up value only if truthy (the `if (x)` / `x || null`
pattern). -/
def truthyOpt (o : Option JVal) : Option JVal :=
  match o with
  | some v => if jsTruthy v then some v else none
  | none => none

/-- The last `:`-separated segment of a key
(`kl.split(":").pop()`). -/
def afterLastColon (l : List Char) : List Char :=
  (l.reverse.takeWhile (fun c => c ≠ ':')).reverse

/-- The local-name part of a lowered key, as computed by `pick` and
`findChild`: `kl.includes(":") ? kl.split(":").pop() : kl`. -/
def tailLocal (l : List Char) : List Char :=
  if l.contains ':' then afterLastColon l else l

/-- Core of `findChild` (src/index.js:199-207): first field whose
lowered key has local name `t` (with `t` the lowered tag). -/
def findTag (t : List Char) : JFields → Option JVal
  | .nil => none
  | .cons k v rest =>
    if tailLocal (lowerL k.data) = t then some v else findTag t rest

/-- Core of `pick` (src/index.js:190-198): first field whose lowered
key equals `t` outright or has local name `t`. -/
def pickTag (t : List Char) : JFields → Option JVal
  | .nil => none
  | .cons k v rest =>
    if lowerL k.data = t || tailLocal (lowerL k.data) = t then some v
    else pickTag t rest

/-- `findChild(obj, tag)` of the source. -/
def findChildJ (v : JVal) (tag : String) : Option JVal :=
  findTag (lowerL tag.data) (jkeys v)

/-- `pick(obj, tag)` of the source. -/
def pickJ (v : JVal) (tag : String) : Option JVal :=
  pickTag (lowerL tag.data) (jkeys v)

/-- Exact property access `obj[k]` (used only for `xml.Envelope`). -/
def getKey (k : String) : JFields → Option JVal
  | .nil => none
  | .cons k2 v rest => if k2 = k then some v else getKey k rest

/-- Exact property access on a value. -/
def exactKeyJ (v : JVal) (k : String) : Option JVal :=
  getKey k (jkeys v)

/-! ## Errors thrown by the interpreter -/

/-- The errors `parseSOAP` can raise: a classified SOAP fault (with its
uppercased `_fault` key and its `message`), a `ParseError`-prefixed
`Error`, or the TypeError raised when `.trim()` is applied to a
non-string `name` value (whose message text is representative). -/
inductive SoapErr where
  | fault (key : String) (message : String)
  | parseError (message : String)
  | typeError (message : String)
deriving DecidableEq

/-- The `message` of the thrown error, as read by the route handler. -/
def SoapErr.messageOf : SoapErr → String
  | .fault _ m => m
  | .parseError m => m
  | .typeError m => m

/-! ## The raw-text fallback scan for `valid`

`text.match(/<[\w:]*valid>\s*(true|false)\s*<\/[\w:]*valid>/i)`
(src/index.js:234).  The scan below returns the boolean of the leftmost
match (the match at a given start position is unique because `>` is not
a `[\w:]` character, so the greedy star must stop exactly at the first
non-word character, which must be the `>`). -/

/-- The class `[\w:]` (with `\w = [A-Za-z0-9_]`). -/
def isWordColon (c : Char) : Bool :=
  c.isAlpha || c.isDigit || c = '_' || c = ':'

/-- Attempt the `valid`-tag pattern at the head of the text. -/
def matchValidAt (l : List Char) : Option Bool :=
  match l with
  | '<' :: rest =>
    let run := rest.takeWhile isWordColon
    let rest1 := rest.dropWhile isWordColon
    if ("valid".data).isSuffixOf (lowerL run) then
      match rest1 with
      | '>' :: rest2 =>
        let rest3 := rest2.dropWhile isJsSpace
        let tf : Option (Bool × List Char) :=
          if lowerL (rest3.take 4) = "true".data then some (true, rest3.drop 4)
          else if lowerL (rest3.take 5) = "false".data then some (false, rest3.drop 5)
          else none
        match tf with
        | some (b, rest4) =>
          let rest5 := rest4.dropWhile isJsSpace
          match rest5 with
          | '<' :: '/' :: rest6 =>
            let run2 := rest6.takeWhile isWordColon
            let rest7 := rest6.dropWhile isWordColon
            if ("valid".data).isSuffixOf (lowerL run2) then
              match rest7 with
              | '>' :: _ => some b
              | _ => none
            else none
          | _ => none
        | none => none
      | _ => none
    else none
  | _ => none

/-- Scan the whole text for the leftmost `valid`-tag match; `m[1]` is
`true` or `false` (case-insensitively), returned lowered as a Bool. -/
def scanValid : List Char → Option Bool
  | [] => none
  | c :: rest =>
    match matchValidAt (c :: rest) with
    | some b => some b
    | none => scanValid rest

/-! ## Newline collapsing for `address`

`replace(/\r?\n+/g, "\n")` (src/index.js:244).  Character-wise this
drops every CR that is immediately followed by a LF and every LF that
is immediately preceded by a LF (the greedy `\n+` keeps exactly the
first LF of each run); a CR not followed by a LF is untouched. -/

/-- One pass of the CR/LF collapse; `prev` is the previous character of
the input (whether or not it was kept). -/
def collapseAux (prev : Option Char) : List Char → List Char
  | [] => []
  | c :: rest =>
    if c = '\r' ∧ rest.head? = some '\n' then collapseAux (some '\r') rest
    else if c = '\n' ∧ prev = some '\n' then collapseAux (some '\n') rest
    else c :: collapseAux (some c) rest

/-- Model of `replace(/\r?\n+/g, "\n")`. -/
def collapseCRLF (l : List Char) : List Char :=
  collapseAux none l

/-! ## The interpreter — `parseSOAP`, src/index.js:185-252 -/

/-- The interpreted result record (the `traderMatch` pair is carried in
two flattened fields).  `countryCode`, `vatNumber`, `requestDate` and
the match indicators are the raw picked values or `null` (`none`);
`name` and `address` are strings. -/
structure VatResult where
  valid : Bool
  countryCode : Option JVal
  vatNumber : Option JVal
  requestDate : Option JVal
  name : String
  address : String
  traderNameMatch : Option JVal
  traderAddressMatch : Option JVal

/-- The fault payload chosen at src/index.js:217:
`pick(fault,"faultstring") || pick(fault,"faultcode") || "SOAP Fault"`. -/
def faultValOf (f : JVal) : JVal :=
  jsOrV (pickJ f "faultstring") (jsOrV (pickJ f "faultcode") (.str "SOAP Fault"))

/-- The classification key `err._fault = String(fs||"").toUpperCase()`
(the chain above always ends in a truthy value, so `fs || ""` is
`fs`). -/
def faultKeyOf (f : JVal) : String :=
  String.mk (upperL (jsToString (faultValOf f)).data)

/-- The message of the thrown fault error. -/
def faultMsgOf (f : JVal) : String :=
  "VIES Fault: " ++ jsToString (faultValOf f)

/-- The fault error thrown at src/index.js:218-220. -/
def faultErrOf (f : JVal) : SoapErr :=
  .fault (faultKeyOf f) (faultMsgOf f)

/-- Envelope and Body location (src/index.js:210-212):
`env = findChild(xml,"envelope") || xml.Envelope || xml`, then
`body = findChild(env,"body")`, failing when the body is absent or
falsy. -/
def locateBody (xml : JVal) : Except SoapErr JVal :=
  let env := jsOrV (findChildJ xml "envelope") (jsOrV (exactKeyJ xml "Envelope") xml)
  match truthyOpt (findChildJ env "body") with
  | some b => .ok b
  | none => .error (.parseError "ParseError: Body not found")

/-- Fault check and response-element location (src/index.js:214-225):
a truthy fault child raises first; otherwise
`findChild(body,"checkVatResponse") || findChild(body,"checkVatApproxResponse")`
must be truthy. -/
def locateOk (xml : JVal) : Except SoapErr JVal :=
  match locateBody xml with
  | .error e => .error e
  | .ok body =>
    match truthyOpt (findChildJ body "fault") with
    | some f => .error (faultErrOf f)
    | none =>
      match truthyOpt (jsOrO (findChildJ body "checkVatResponse")
          (findChildJ body "checkVatApproxResponse")) with
      | some okEl => .ok okEl
      | none => .error (.parseError "ParseError: *Response not found")

/-- Resolution of the `valid` field (src/index.js:228-237): a native
boolean is used as-is; any other present value is coerced with
`String(...).trim().toLowerCase() === "true"`; an absent value falls
back to the raw-text regex scan, and raises if that fails too. -/
def validOf (okEl : JVal) (text : String) : Except SoapErr Bool :=
  match pickJ okEl "valid" with
  | some (.bool b) => .ok b
  | some v => .ok (decide (lowerL (trimL (jsToString v).data) = "true".data))
  | none =>
    match scanValid text.data with
    | some b => .ok b
    | none => .error (.parseError "ParseError: valid not found")

/-- The `name` field (src/index.js:242):
`(pick(ok,"name") || pick(ok,"traderName") || "").trim()` — `.trim()`
on a non-string value raises a TypeError. -/
def nameOf (okEl : JVal) : Except SoapErr String :=
  match jsOrV (pickJ okEl "name") (jsOrV (pickJ okEl "traderName") (.str "")) with
  | .str s => .ok (String.mk (trimL s.data))
  | _ => .error (.typeError "TypeError: trim is not a function")

/-- The string the address transformation is applied to
(src/index.js:243): `(pick(ok,"address") || pick(ok,"traderAddress") || "") + ""`. -/
def addrSource (okEl : JVal) : List Char :=
  (jsToString (jsOrV (pickJ okEl "address")
    (jsOrV (pickJ okEl "traderAddress") (.str "")))).data

/-- Field extraction from the located response element
(src/index.js:228-251). -/
def interpretOk (okEl : JVal) (text : String) : Except SoapErr VatResult :=
  match validOf okEl text with
  | .error e => .error e
  | .ok valid =>
    match nameOf okEl with
    | .error e => .error e
    | .ok name =>
      .ok { valid := valid
            countryCode := truthyOpt (pickJ okEl "countryCode")
            vatNumber := truthyOpt (pickJ okEl "vatNumber")
            requestDate := truthyOpt (pickJ okEl "requestDate")
            name := name
            address := String.mk (trimL (collapseCRLF (addrSource okEl)))
            traderNameMatch := truthyOpt (pickJ okEl "traderNameMatch")
            traderAddressMatch := truthyOpt (pickJ okEl "traderAddressMatch") }

/-- `parseSOAP` (src/index.js:185-252) on the parsed tree and the raw
body text. -/
def parseSOAP (xml : JVal) (text : String) : Except SoapErr VatResult :=
  match locateOk xml with
  | .error e => .error e
  | .ok okEl => interpretOk okEl text

/-! ## The lookup coordinator — `app.get("/api/vies-check")`, src/index.js:286-339

The two upstream calls are pure-data parameters: `step1` is the outcome
of `checkVat` (SOAP post + `parseSOAP`) and `approx` the outcome of
`checkVatApprox`; the handler consults `approx` only when it actually
issues the approximate request, and the returned Bool records whether
it did. -/

/-- A step outcome: the interpreted result and the raw body text
(`{ parsed, raw }` as returned by `checkVat`/`checkVatApprox`). -/
structure StepRes where
  parsed : VatResult
  raw : String

/-- A handler response: an error JSON `{ ok:false, error }` with its
HTTP status, or a success JSON `{ ok:true, ...parsed }` with its
optional `source` field and optional `_raw` echo. -/
inductive HOut where
  | errOut (status : Nat) (error : String)
  | success (parsed : VatResult) (source : Option String) (rawEcho : Option String)

/-- The `source` field of a response, if any. -/
def HOut.sourceOf : HOut → Option String
  | .success _ src _ => src
  | .errOut _ _ => none

/-- The result payload of a response, if it is a success. -/
def HOut.parsedOf : HOut → Option VatResult
  | .success p _ _ => some p
  | .errOut _ _ => none

/-- JavaScript `hay.includes(needle)` on strings. -/
def hasSub (hay needle : List Char) : Bool :=
  match hay with
  | [] => needle.isEmpty
  | _ :: rest => needle.isPrefixOf hay || hasSub rest needle

/-- `toUpperCase` on a string. -/
def upperStr (s : String) : String := String.mk (upperL s.data)

/-- Classification of an error thrown by the exact check
(src/index.js:297-303 and the outer catch at 335-338):
`msg = (e?.message || "").toUpperCase()` routed on fault tokens, with
unmatched errors rethrown into the 502 catch-all. -/
def classifyStep1Err (e : SoapErr) : HOut :=
  let msg := (upperStr e.messageOf).data
  if hasSub msg ("INVALID_INPUT".data) then
    .errOut 400 "VIES: INVALID_INPUT (format non conforme)"
  else if hasSub msg ("SERVICE_UNAVAILABLE".data) || hasSub msg ("MS_UNAVAILABLE".data) then
    .errOut 503 "VIES indisponible (réessayer)"
  else if hasSub msg ("GLOBAL_MAX_CONCURRENT_REQ".data) || hasSub msg ("BUSY".data) then
    .errOut 429 "VIES rate limit (trop de requêtes)"
  else if hasSub msg ("PARSEERROR".data) then
    .errOut 502 "Erreur de parsing SOAP"
  else
    .errOut 502 (if e.messageOf = "" then "Erreur VIES" else e.messageOf)

/-- The requester identifier (src/index.js:315-316):
`requesterVat ? parseVat(requesterVat) : (REQUESTER_VAT ? parseVat(REQUESTER_VAT) : null)`. -/
def requesterOf (requesterVat : Option String) (envRequesterVat : String) :
    Option (String × String) :=
  match requesterVat with
  | some s =>
    if s ≠ "" then parseVat s
    else if envRequesterVat ≠ "" then parseVat envRequesterVat else none
  | none =>
    if envRequesterVat ≠ "" then parseVat envRequesterVat else none

/-- The route handler (src/index.js:286-339).  Arguments: the three
query parameters, the `REQUESTER_VAT` and `NODE_ENV` configuration, and
the outcomes of the exact and approximate upstream calls.  Returns the
response together with a flag telling whether the approximate request
was issued. -/
def viesHandler (vat requesterVat debug : Option String)
    (envRequesterVat nodeEnv : String)
    (step1 : Except SoapErr StepRes) (approx : Except SoapErr StepRes) :
    HOut × Bool :=
  match parseVat (vat.getD "") with
  | none => (.errOut 400 "VAT invalide (format)", false)
  | some _ =>
    match step1 with
    | .error e => (classifyStep1Err e, false)
    | .ok s1 =>
      if s1.parsed.valid then
        (.success s1.parsed none
          (if debug = some "1" ∧ nodeEnv ≠ "production"
           then some (s1.raw.take 2000) else none), false)
      else
        match requesterOf requesterVat envRequesterVat with
        | some _ =>
          let step2 : Option StepRes :=
            match approx with
            | .ok s2 => some s2
            | .error _ => none
          let s2valid : Bool :=
            match step2 with
            | some s2 => s2.parsed.valid
            | none => false
          let best := if s2valid then step2.getD s1 else s1
          (.success best.parsed (some (if s2valid then "approx" else "standard"))
            (if debug = some "1" then some (best.raw.take 2000) else none), true)
        | none =>
          (.success s1.parsed (some "standard")
            (if debug = some "1" then some (s1.raw.take 2000) else none), false)

/-! ## Auxiliary predicates and concrete response trees used by the
claim theorems -/

/-- A carriage return or a newline. -/
def isCRLFChar (c : Char) : Bool := c = '\r' || c = '\n'

/-- Two adjacent newline characters occur somewhere in the list. -/
def hasAdjNl : List Char → Bool
  | a :: b :: rest => (a = '\n' && b = '\n') || hasAdjNl (b :: rest)
  | _ => false

/-- Two adjacent CR/LF characters occur somewhere in the list. -/
def hasAdjCRLF : List Char → Bool
  | a :: b :: rest => (isCRLFChar a && isCRLFChar b) || hasAdjCRLF (b :: rest)
  | _ => false

/-- A non-SOAP tree (what fast-xml-parser yields for
`<foo><valid>true</valid></foo>`): no envelope, no body. -/
def xmlNoBody : JVal :=
  .obj (.cons "foo" (.obj (.cons "valid" (.str "true") .nil)) .nil)

/-- The raw text behind `xmlNoBody`, carrying a recognizable
`<valid>true</valid>` token. -/
def textNoBody : String := "<foo><valid>true</valid></foo>"

/-- A response element whose address contains a run of carriage
returns. -/
def okFieldsAddrCR : JFields :=
  .cons "countryCode" (.str "FR") (.cons "vatNumber" (.str "40303265045")
    (.cons "valid" (.str "true") (.cons "name" (.str " ACME ")
      (.cons "address" (.str "A\r\rB") .nil))))

/-- A full response tree around `okFieldsAddrCR`. -/
def xmlAddrCR : JVal :=
  .obj (.cons "soap:Envelope" (.obj (.cons "soap:Body" (.obj
    (.cons "checkVatResponse" (.obj okFieldsAddrCR) .nil)) .nil)) .nil)

/-- A fault element with a `faultstring`. -/
def faultElW : JVal :=
  .obj (.cons "faultstring" (.str "MS_UNAVAILABLE") .nil)

/-- A SOAP body containing both the fault element and a
`checkVatResponse` element. -/
def bodyFaultBoth : JVal :=
  .obj (.cons "soap:Fault" faultElW
    (.cons "checkVatResponse" (.obj (.cons "valid" (.str "true") .nil)) .nil))

/-- A tree whose body holds both a fault and a response. -/
def xmlFaultBoth : JVal :=
  .obj (.cons "Envelope" (.obj (.cons "Body" bodyFaultBoth .nil)) .nil)

/-- A response element with no `valid` field (and no other fields). -/
def xmlValidMissing : JVal :=
  .obj (.cons "S:Envelope" (.obj (.cons "S:Body" (.obj
    (.cons "ns2:checkVatApproxResponse" (.obj .nil) .nil)) .nil)) .nil)

/-- A raw body whose structured `valid` is missing but which the regex
scan can still read. -/
def textValidTrue : String := "<ns2:valid> true </ns2:valid>"

/-- A well-formed response element with leaf fields only. -/
def respPlain : JVal :=
  .obj (.cons "valid" (.str "true")
    (.cons "countryCode" (.str "FR")
      (.cons "vatNumber" (.str "40303265045")
        (.cons "name" (.str "ACME")
          (.cons "address" (.str "1 Rue X\n75000 Paris") .nil)))))

/-- A well-formed unprefixed response tree around `respPlain`. -/
def xmlPlain : JVal :=
  .obj (.cons "Envelope" (.obj (.cons "Body" (.obj
    (.cons "checkVatResponse" respPlain .nil)) .nil)) .nil)

/-- The interpreted result of `xmlPlain`. -/
def resPlain : VatResult :=
  { valid := true, countryCode := some (.str "FR"),
    vatNumber := some (.str "40303265045"), requestDate := none,
    name := "ACME", address := "1 Rue X\n75000 Paris",
    traderNameMatch := none, traderAddressMatch := none }

/-- A parsed result used by the coordinator claims. -/
def parsedValid : VatResult :=
  { valid := true, countryCode := some (.str "FR"),
    vatNumber := some (.str "40303265045"), requestDate := none,
    name := "ACME", address := "1 Rue X\n75000 Paris",
    traderNameMatch := none, traderAddressMatch := none }

/-- The same result reported invalid. -/
def parsedInvalid : VatResult :=
  { parsedValid with valid := false }

/-- An approximate-check result reported valid. -/
def parsedApprox : VatResult :=
  { valid := true, countryCode := some (.str "FR"),
    vatNumber := some (.str "40303265045"), requestDate := none,
    name := "ACME SA", address := "1 Rue X\n75000 Paris",
    traderNameMatch := some (.num 1), traderAddressMatch := some (.num 2) }

/-- A response tree whose `checkVatResponse` element has no fields at
all. -/
def xmlRespEmpty : JVal :=
  .obj (.cons "Envelope" (.obj (.cons "Body" (.obj
    (.cons "checkVatResponse" (.obj .nil) .nil)) .nil)) .nil)

/-- A raw body for `xmlRespEmpty` still carrying a `valid` token. -/
def textRespEmpty : String :=
  "<checkVatResponse><valid>true</valid></checkVatResponse>"

/-! ## Namespace qualification (for the prefix-agnosticism claim)

fast-xml-parser keeps namespace prefixes in the keys, so the parsed
tree of a response whose every element carries prefix `p` is the
unprefixed tree with every key `k` renamed to `p:k`. -/

mutual

/-- Rename every key at every depth from `k` to `p:k`. -/
def qualify (p : String) : JVal → JVal
  | .str s => .str s
  | .num n => .num n
  | .bool b => .bool b
  | .obj fs => .obj (qualifyF p fs)

/-- Key renaming on a field list. -/
def qualifyF (p : String) : JFields → JFields
  | .nil => .nil
  | .cons k v rest =>
    .cons (String.mk (p.data ++ ':' :: k.data)) (qualify p v) (qualifyF p rest)

end

/-- Object-node test. -/
def isObjJ : JVal → Bool
  | .obj _ => true
  | _ => false

/-- All field values are leaves (text/number/boolean), as in every
well-formed response payload. -/
def leafOnly : JFields → Bool
  | .nil => true
  | .cons _ v rest => !isObjJ v && leafOnly rest

/-! ## Theorems for claims C1 and C10 -/

/-- C1: `parseVat` succeeds exactly on inputs whose cleaned form (after
uppercasing, stripping whitespace, periods and hyphens, and dropping a
leading literal `EU`) is two ASCII uppercase letters followed by at
least two characters of `[0-9A-Z+*.]`; on the spec's examples it
returns `FR`/`40303265045` for `"fr 40303265045"` and
`"EU-FR.40303265045"`, and `null` for `"1234"` and `""`. -/
theorem normalizer_shape_characterization (raw : String) :
    ((parseVat raw).isSome = specVatShape raw) ∧
    parseVat "fr 40303265045" = some ("FR", "40303265045") ∧
    parseVat "EU-FR.40303265045" = some ("FR", "40303265045") ∧
    parseVat "1234" = none ∧
    parseVat "" = none := by
  refine ⟨?_, by decide, by decide, by decide, by decide⟩
  unfold parseVat specVatShape
  cases h : cleanedVat raw with
  | nil => simp [regexCC]
  | cons a t =>
    cases t with
    | nil => simp [regexCC]
    | cons b rest =>
      simp only [List.take, List.drop]
      have hsome : ∀ (bb : Bool) (x : String × String),
          (if bb then some x else none).isSome = bb := by
        intro bb x; cases bb <;> simp
      rw [hsome]
      simp only [regexCC, regexNum, List.all_cons, List.length_cons,
        List.length_nil]
      cases isUpperAlpha a <;> cases isUpperAlpha b <;>
        cases hlen : decide (2 ≤ rest.length) <;>
        cases rest.all isVatChar <;> simp

/-- Dropping a leading `EU` cannot introduce characters. -/
theorem mem_of_mem_dropEU {l : List Char} {c : Char} (h : c ∈ dropEU l) :
    c ∈ l := by
  unfold dropEU at h
  split at h
  · exact List.mem_cons_of_mem _ (List.mem_cons_of_mem _ h)
  · exact h

/-- Characters of the cleaned string all survived the strip filter. -/
theorem cleanedVat_kept {raw : String} {c : Char} (h : c ∈ cleanedVat raw) :
    keptByStrip c = true :=
  List.of_mem_filter (mem_of_mem_dropEU h)

/-- C10: every identifier `parseVat` constructs satisfies the
`VatIdentifier` invariant: the country code is exactly two ASCII
uppercase letters, the number is at least two characters drawn from
`[0-9A-Z+*]` (the period nominally allowed by the validation regex is
always removed by the cleaning step), and neither field contains any
whitespace, hyphen or period character. -/
theorem normalizer_invariant (raw cc num : String)
    (h : parseVat raw = some (cc, num)) :
    cc.length = 2 ∧ cc.data.all isUpperAlpha = true ∧
    2 ≤ num.length ∧
    num.data.all (fun c => c.isDigit || isUpperAlpha c || c = '+' || c = '*') = true ∧
    cc.data.all keptByStrip = true ∧
    num.data.all keptByStrip = true := by
  unfold parseVat at h
  dsimp only at h
  split at h
  case isFalse => exact absurd h (by simp)
  case isTrue hcond =>
    rw [Option.some.injEq, Prod.mk.injEq] at h
    obtain ⟨hcc, hnum⟩ := h
    rw [Bool.and_eq_true, regexCC, regexNum, Bool.and_eq_true, Bool.and_eq_true]
      at hcond
    obtain ⟨⟨hlen2, hccall⟩, hlen, hnumall⟩ := hcond
    subst hcc hnum
    have hccdata : (String.mk ((cleanedVat raw).take 2)).data
        = (cleanedVat raw).take 2 := rfl
    have hnumdata : (String.mk ((cleanedVat raw).drop 2)).data
        = (cleanedVat raw).drop 2 := rfl
    rw [beq_iff_eq] at hlen2
    refine ⟨by simpa [String.length] using hlen2,
      by simpa [hccdata] using hccall,
      by simpa [String.length] using of_decide_eq_true hlen, ?_, ?_, ?_⟩
    · rw [hnumdata, List.all_eq_true]
      intro c hc
      have hkept : keptByStrip c = true :=
        cleanedVat_kept (List.drop_subset _ _ hc)
      have hvat : isVatChar c = true := by
        rw [List.all_eq_true] at hnumall
        exact hnumall c hc
      have hnotdot : c ≠ '.' := by
        intro hdot
        rw [hdot] at hkept
        simp [keptByStrip] at hkept
      rw [isVatChar] at hvat
      rcases Bool.or_eq_true_iff.mp hvat with h4 | hd
      · rcases Bool.or_eq_true_iff.mp h4 with h3 | hs
        · rcases Bool.or_eq_true_iff.mp h3 with h2 | hp
          · simp [h2]
          · simp [of_decide_eq_true hp]
        · simp [of_decide_eq_true hs]
      · exact absurd (of_decide_eq_true hd) hnotdot
    · rw [hccdata, List.all_eq_true]
      intro c hc
      exact cleanedVat_kept (List.take_subset _ _ hc)
    · rw [hnumdata, List.all_eq_true]
      intro c hc
      exact cleanedVat_kept (List.drop_subset _ _ hc)

/-- Witness for C10 at the spec's example input. -/
theorem normalizer_invariant_witness :
    parseVat "fr 40303265045" = some ("FR", "40303265045") ∧
    (("FR" : String).length = 2 ∧ ("FR" : String).data.all isUpperAlpha = true ∧
     2 ≤ ("40303265045" : String).length ∧
     ("40303265045" : String).data.all
       (fun c => c.isDigit || isUpperAlpha c || c = '+' || c = '*') = true ∧
     ("FR" : String).data.all keptByStrip = true ∧
     ("40303265045" : String).data.all keptByStrip = true) :=
  ⟨by decide, normalizer_invariant "fr 40303265045" "FR" "40303265045" (by decide)⟩

/-- C2 (counterexample): on a lookup whose exact check already reports
`valid: true`, the handler answers immediately and never issues the
approximate request, but the response carries NO `source` field at all
(src/index.js:308 spreads `step1.parsed` without adding `source`),
contradicting the claimed `source = "standard"`. -/
theorem coordinator_short_circuit_cex :
    (viesHandler (some "FR40303265045") none none "" "production"
        (.ok ⟨parsedValid, "rawbody"⟩)
        (.error (.parseError "ParseError: Body not found"))).1
      = .success parsedValid none none ∧
    (viesHandler (some "FR40303265045") none none "" "production"
        (.ok ⟨parsedValid, "rawbody"⟩)
        (.error (.parseError "ParseError: Body not found"))).2 = false ∧
    (HOut.success parsedValid none none).sourceOf ≠ some "standard" :=
  ⟨rfl, rfl, by simp [HOut.sourceOf]⟩

/-- C2 (amended): when the exact check reports `valid = true`, the
coordinator returns that result immediately — with no `source` field —
and the approximate request is never issued. -/
theorem coordinator_short_circuit (vat requesterVat debug : Option String)
    (envRequesterVat nodeEnv : String) (s1 : StepRes)
    (approx : Except SoapErr StepRes)
    (ht : (parseVat (vat.getD "")).isSome = true)
    (hv : s1.parsed.valid = true) :
    (viesHandler vat requesterVat debug envRequesterVat nodeEnv
        (.ok s1) approx).2 = false ∧
    (viesHandler vat requesterVat debug envRequesterVat nodeEnv
        (.ok s1) approx).1.parsedOf = some s1.parsed ∧
    (viesHandler vat requesterVat debug envRequesterVat nodeEnv
        (.ok s1) approx).1.sourceOf = none := by
  cases hp : parseVat (vat.getD "") with
  | none => rw [hp] at ht; simp at ht
  | some tgt =>
    unfold viesHandler
    rw [hp]
    simp [hv, HOut.parsedOf, HOut.sourceOf]

/-- Witness for the amended C2. -/
theorem coordinator_short_circuit_witness :
    (viesHandler (some "FR40303265045") (some "FR12345678901") none "" "test"
        (.ok ⟨parsedValid, "raw1"⟩) (.ok ⟨parsedApprox, "raw2"⟩)).2 = false ∧
    (viesHandler (some "FR40303265045") (some "FR12345678901") none "" "test"
        (.ok ⟨parsedValid, "raw1"⟩) (.ok ⟨parsedApprox, "raw2"⟩)).1.parsedOf
      = some parsedValid ∧
    (viesHandler (some "FR40303265045") (some "FR12345678901") none "" "test"
        (.ok ⟨parsedValid, "raw1"⟩) (.ok ⟨parsedApprox, "raw2"⟩)).1.sourceOf
      = none :=
  coordinator_short_circuit (some "FR40303265045") (some "FR12345678901")
    none "" "test" ⟨parsedValid, "raw1"⟩ (.ok ⟨parsedApprox, "raw2"⟩)
    (by decide) rfl

/-- C4: when the exact check reports `valid = false`, a requester VAT
is available, and the approximate step raises any error, the
coordinator returns the exact-check result with `source = "standard"`
and does not propagate the approximate error (the response is a
success). -/
theorem coordinator_degrade_on_approx_failure
    (vat requesterVat debug : Option String)
    (envRequesterVat nodeEnv : String) (s1 : StepRes) (e : SoapErr)
    (rq : String × String)
    (ht : (parseVat (vat.getD "")).isSome = true)
    (hrq : requesterOf requesterVat envRequesterVat = some rq)
    (hv : s1.parsed.valid = false) :
    (viesHandler vat requesterVat debug envRequesterVat nodeEnv
        (.ok s1) (.error e)).1.parsedOf = some s1.parsed ∧
    (viesHandler vat requesterVat debug envRequesterVat nodeEnv
        (.ok s1) (.error e)).1.sourceOf = some "standard" ∧
    (viesHandler vat requesterVat debug envRequesterVat nodeEnv
        (.ok s1) (.error e)).2 = true := by
  cases hp : parseVat (vat.getD "") with
  | none => rw [hp] at ht; simp at ht
  | some tgt =>
    unfold viesHandler
    rw [hp, hrq]
    simp [hv, HOut.parsedOf, HOut.sourceOf]

/-- Witness for C4. -/
theorem coordinator_degrade_on_approx_failure_witness :
    (viesHandler (some "FR40303265045") (some "FR12345678901") none "" "test"
        (.ok ⟨parsedInvalid, "raw1"⟩)
        (.error (.fault "MS_UNAVAILABLE" "VIES Fault: MS_UNAVAILABLE"))).1.parsedOf
      = some parsedInvalid ∧
    (viesHandler (some "FR40303265045") (some "FR12345678901") none "" "test"
        (.ok ⟨parsedInvalid, "raw1"⟩)
        (.error (.fault "MS_UNAVAILABLE" "VIES Fault: MS_UNAVAILABLE"))).1.sourceOf
      = some "standard" ∧
    (viesHandler (some "FR40303265045") (some "FR12345678901") none "" "test"
        (.ok ⟨parsedInvalid, "raw1"⟩)
        (.error (.fault "MS_UNAVAILABLE" "VIES Fault: MS_UNAVAILABLE"))).2 = true :=
  coordinator_degrade_on_approx_failure (some "FR40303265045")
    (some "FR12345678901") none "" "test" ⟨parsedInvalid, "raw1"⟩
    (.fault "MS_UNAVAILABLE" "VIES Fault: MS_UNAVAILABLE")
    ("FR", "12345678901") (by decide) (by decide) rfl

/-- C5: when the exact check reports `valid = false`, the coordinator
returns the approximate result with `source = "approx"` exactly when
the approximate step ran, succeeded and reports `valid = true`; in
every other case it returns the exact-check result with
`source = "standard"`. -/
theorem coordinator_approx_preference (vat requesterVat debug : Option String)
    (envRequesterVat nodeEnv : String) (s1 : StepRes)
    (approx : Except SoapErr StepRes)
    (ht : (parseVat (vat.getD "")).isSome = true)
    (hv : s1.parsed.valid = false) :
    (∀ s2, requesterOf requesterVat envRequesterVat ≠ none → approx = .ok s2 →
      s2.parsed.valid = true →
      (viesHandler vat requesterVat debug envRequesterVat nodeEnv
          (.ok s1) approx).1.parsedOf = some s2.parsed ∧
      (viesHandler vat requesterVat debug envRequesterVat nodeEnv
          (.ok s1) approx).1.sourceOf = some "approx") ∧
    (¬ (requesterOf requesterVat envRequesterVat ≠ none ∧
          ∃ s2, approx = .ok s2 ∧ s2.parsed.valid = true) →
      (viesHandler vat requesterVat debug envRequesterVat nodeEnv
          (.ok s1) approx).1.parsedOf = some s1.parsed ∧
      (viesHandler vat requesterVat debug envRequesterVat nodeEnv
          (.ok s1) approx).1.sourceOf = some "standard") := by
  cases hp : parseVat (vat.getD "") with
  | none => rw [hp] at ht; simp at ht
  | some tgt =>
    constructor
    · intro s2 hrqne happrox hs2
      cases hrq : requesterOf requesterVat envRequesterVat with
      | none => exact absurd hrq hrqne
      | some rq =>
        unfold viesHandler
        rw [hp, hrq, happrox]
        simp [hv, hs2, HOut.parsedOf, HOut.sourceOf]
    · intro hneg
      cases hrq : requesterOf requesterVat envRequesterVat with
      | none =>
        unfold viesHandler
        rw [hp, hrq]
        simp [hv, HOut.parsedOf, HOut.sourceOf]
      | some rq =>
        cases happrox : approx with
        | error e =>
          unfold viesHandler
          rw [hp, hrq]
          simp [hv, HOut.parsedOf, HOut.sourceOf]
        | ok s2 =>
          have hs2 : s2.parsed.valid = false := by
            by_contra hcon
            rw [Bool.not_eq_false] at hcon
            exact hneg ⟨by rw [hrq]; exact fun h => Option.noConfusion h,
              s2, happrox, hcon⟩
          unfold viesHandler
          rw [hp, hrq]
          simp [hv, hs2, HOut.parsedOf, HOut.sourceOf]

/-- Witness for C5 (the approx-preferred branch). -/
theorem coordinator_approx_preference_witness :
    (viesHandler (some "FR40303265045") (some "FR12345678901") none "" "test"
        (.ok ⟨parsedInvalid, "raw1"⟩) (.ok ⟨parsedApprox, "raw2"⟩)).1.parsedOf
      = some parsedApprox ∧
    (viesHandler (some "FR40303265045") (some "FR12345678901") none "" "test"
        (.ok ⟨parsedInvalid, "raw1"⟩) (.ok ⟨parsedApprox, "raw2"⟩)).1.sourceOf
      = some "approx" :=
  (coordinator_approx_preference (some "FR40303265045")
      (some "FR12345678901") none "" "test" ⟨parsedInvalid, "raw1"⟩
      (.ok ⟨parsedApprox, "raw2"⟩) (by decide) rfl).1
    ⟨parsedApprox, "raw2"⟩ (by decide) rfl rfl

/-- Unfolding fact: a truthy lookup means the underlying lookup found
that value and it is truthy. -/
theorem truthyOpt_eq_some {o : Option JVal} {v : JVal}
    (h : truthyOpt o = some v) : o = some v ∧ jsTruthy v = true := by
  cases o with
  | none => simp [truthyOpt] at h
  | some w =>
    by_cases hw : jsTruthy w = true
    · simp only [truthyOpt, hw, if_true, Option.some.injEq] at h
      exact ⟨by rw [h], by rw [← h]; exact hw⟩
    · simp only [truthyOpt, hw, if_false, reduceIte] at h
      exact Option.noConfusion h

/-- C3: whenever the located SOAP body contains a truthy fault element
— even if a `checkVatResponse`/`checkVatApproxResponse` element is also
present — the interpreter raises the fault error (classification key
`String(faultstring || faultcode || "SOAP Fault").toUpperCase()`) and
never returns a successful result; the key is the uppercased
`faultstring` when one is (truthily) present, and falls back to the
uppercased `faultcode` otherwise. -/
theorem interpreter_fault_priority (xml body f : JVal) (text : String)
    (hb : locateBody xml = .ok body)
    (hf : truthyOpt (findChildJ body "fault") = some f)
    (hresp : ∃ v, truthyOpt (jsOrO (findChildJ body "checkVatResponse")
        (findChildJ body "checkVatApproxResponse")) = some v) :
    parseSOAP xml text = .error (faultErrOf f) ∧
    (∀ r, parseSOAP xml text ≠ .ok r) ∧
    (∀ s, truthyOpt (pickJ f "faultstring") = some (.str s) →
      faultKeyOf f = String.mk (upperL s.data)) ∧
    (truthyOpt (pickJ f "faultstring") = none →
      ∀ c, truthyOpt (pickJ f "faultcode") = some (.str c) →
        faultKeyOf f = String.mk (upperL c.data)) := by
  have hmain : parseSOAP xml text = .error (faultErrOf f) := by
    unfold parseSOAP locateOk
    rw [hb]
    simp only [hf]
  refine ⟨hmain, fun r hr => by rw [hmain] at hr; exact Except.noConfusion hr,
    ?_, ?_⟩
  · intro s hs
    obtain ⟨hpick, htr⟩ := truthyOpt_eq_some hs
    simp only [faultKeyOf, faultValOf, hpick, jsOrV, htr, if_true, jsToString]
  · intro hnone c hc
    obtain ⟨hpick, htr⟩ := truthyOpt_eq_some hc
    cases hfs : pickJ f "faultstring" with
    | none =>
      simp only [faultKeyOf, faultValOf, hfs, hpick, jsOrV, htr, if_true, jsToString]
    | some w =>
      have hw : jsTruthy w = false := by
        by_contra hcon
        rw [Bool.not_eq_false] at hcon
        rw [hfs] at hnone
        simp [truthyOpt, hcon] at hnone
      simp only [faultKeyOf, faultValOf, hfs, hpick, jsOrV, hw, htr,
        Bool.false_eq_true, if_false, if_true, reduceIte, jsToString]

/-- Witness for C3: a body holding both a fault (with
`faultstring = "MS_UNAVAILABLE"`) and a `checkVatResponse`. -/
theorem interpreter_fault_priority_witness :
    parseSOAP xmlFaultBoth "ignored"
      = .error (.fault "MS_UNAVAILABLE" "VIES Fault: MS_UNAVAILABLE") ∧
    faultKeyOf faultElW = String.mk (upperL ("MS_UNAVAILABLE" : String).data) :=
  ⟨(interpreter_fault_priority xmlFaultBoth bodyFaultBoth faultElW "ignored"
      rfl rfl ⟨.obj (.cons "valid" (.str "true") .nil), rfl⟩).1,
   (interpreter_fault_priority xmlFaultBoth bodyFaultBoth faultElW "ignored"
      rfl rfl ⟨.obj (.cons "valid" (.str "true") .nil), rfl⟩).2.2.1
     "MS_UNAVAILABLE" rfl⟩

/-- ASCII lower-casing does not change whether a character is
whitespace. -/
theorem lowerC_isJsSpace (c : Char) : isJsSpace (lowerC c) = isJsSpace c := by
  unfold lowerC
  split <;> rfl

/-- A string that lowercases to `true` is already trimmed. -/
theorem trimL_of_lower_true {s : List Char} (h : lowerL s = "true".data) :
    trimL s = s := by
  cases s with
  | nil => simp [lowerL] at h
  | cons a t =>
  cases t with
  | nil => simp [lowerL] at h
  | cons b t2 =>
  cases t2 with
  | nil => simp [lowerL] at h
  | cons c t3 =>
  cases t3 with
  | nil => simp [lowerL] at h
  | cons d t4 =>
  cases t4 with
  | cons e t5 => simp [lowerL] at h
  | nil =>
    simp only [lowerL, List.map_cons, List.map_nil, show ("true" : String).data
      = ['t', 'r', 'u', 'e'] from rfl, List.cons.injEq, and_true] at h
    obtain ⟨h1, h2, h3, h4⟩ := h
    have ha : isJsSpace a = false := by
      rw [← lowerC_isJsSpace a, h1]; decide
    have hd : isJsSpace d = false := by
      rw [← lowerC_isJsSpace d, h4]; decide
    simp [trimL, List.dropWhile_cons, ha, dropTrail, hd]

/-- C7: resolution of the `valid` field.  When the located response
element lacks a `valid` child, the interpreter falls back to the
raw-text regex scan for a `<...valid>true|false</...valid>` token and
uses its boolean; if the scan fails too it raises
`ParseError("valid not found")`.  When the field is present it accepts
a native boolean as-is and accepts any string comparing
case-insensitively equal to `"true"` as `true`. -/
theorem interpreter_valid_resolution (xml okEl : JVal) (text : String)
    (hloc : locateOk xml = .ok okEl) :
    (pickJ okEl "valid" = none → scanValid text.data = none →
      parseSOAP xml text = .error (.parseError "ParseError: valid not found")) ∧
    (∀ b r, pickJ okEl "valid" = none → scanValid text.data = some b →
      parseSOAP xml text = .ok r → r.valid = b) ∧
    (∀ b r, pickJ okEl "valid" = some (.bool b) →
      parseSOAP xml text = .ok r → r.valid = b) ∧
    (∀ s r, pickJ okEl "valid" = some (.str s) → lowerL s.data = "true".data →
      parseSOAP xml text = .ok r → r.valid = true) := by
  have hps : parseSOAP xml text = interpretOk okEl text := by
    unfold parseSOAP
    rw [hloc]
  refine ⟨?_, ?_, ?_, ?_⟩
  · intro hv hscan
    rw [hps]
    unfold interpretOk validOf
    simp only [hv, hscan]
  · intro b r hv hscan hr
    rw [hps] at hr
    unfold interpretOk validOf at hr
    simp only [hv, hscan] at hr
    cases hname : nameOf okEl with
    | error e =>
      rw [hname] at hr
      exact Except.noConfusion hr
    | ok nm =>
      simp only [hname, Except.ok.injEq] at hr
      rw [← hr]
  · intro b r hv hr
    rw [hps] at hr
    unfold interpretOk validOf at hr
    simp only [hv] at hr
    cases hname : nameOf okEl with
    | error e =>
      rw [hname] at hr
      exact Except.noConfusion hr
    | ok nm =>
      simp only [hname, Except.ok.injEq] at hr
      rw [← hr]
  · intro s r hv hlow hr
    rw [hps] at hr
    unfold interpretOk validOf at hr
    simp only [hv] at hr
    have hcoerce : lowerL (trimL (jsToString (JVal.str s)).data) = "true".data := by
      rw [show jsToString (JVal.str s) = s from rfl, trimL_of_lower_true hlow]
      exact hlow
    cases hname : nameOf okEl with
    | error e =>
      rw [hname] at hr
      exact Except.noConfusion hr
    | ok nm =>
      simp only [hname, Except.ok.injEq] at hr
      rw [← hr]
      simp [hcoerce]

/-- Witness for C7: a response whose structured `valid` is missing and
whose raw text carries `<ns2:valid> true </ns2:valid>`. -/
theorem interpreter_valid_resolution_witness :
    (parseSOAP xmlValidMissing textValidTrue = .ok
      { valid := true, countryCode := none, vatNumber := none,
        requestDate := none, name := "", address := "",
        traderNameMatch := none, traderAddressMatch := none }) ∧
    VatResult.valid
      { valid := true, countryCode := none, vatNumber := none,
        requestDate := none, name := "", address := "",
        traderNameMatch := none, traderAddressMatch := none } = true :=
  ⟨rfl,
   (interpreter_valid_resolution xmlValidMissing
      (.obj .nil) textValidTrue rfl).2.1 true
      { valid := true, countryCode := none, vatNumber := none,
        requestDate := none, name := "", address := "",
        traderNameMatch := none, traderAddressMatch := none }
      rfl (by decide) rfl⟩

/-- C6 (counterexample): a body that defeats the structured SOAP walk
(no envelope, no body — e.g. fast-xml-parser output for
`<foo><valid>true</valid></foo>`) is NOT recovered by any fallback even
though the raw text carries a perfectly recognizable
`<valid>true</valid>` token: `parseSOAP` raises
`ParseError("Body not found")` and returns nothing, echoed or
otherwise.  (The interpreter takes no caller-supplied identifier at
all, so the claimed countryCode/vatNumber echo cannot occur.) -/
theorem interpreter_no_structural_fallback_cex :
    scanValid textNoBody.data = some true ∧
    parseSOAP xmlNoBody textNoBody
      = .error (.parseError "ParseError: Body not found") :=
  ⟨by decide, rfl⟩

/-- C6 (amended): the only regex fallback is for the `valid` field, and
it runs only after a response element has been located; fields missing
from the response element default to `null`
(countryCode/vatNumber/requestDate/traderMatch) or the empty string
(name/address) — never to an echo of the caller-supplied identifier,
which the interpreter does not even receive. -/
theorem interpreter_valid_fallback_defaults (xml okEl : JVal) (text : String)
    (b : Bool)
    (hloc : locateOk xml = .ok okEl)
    (hv : pickJ okEl "valid" = none)
    (hscan : scanValid text.data = some b)
    (hcc : pickJ okEl "countryCode" = none)
    (hvn : pickJ okEl "vatNumber" = none)
    (hrd : pickJ okEl "requestDate" = none)
    (hnm : pickJ okEl "name" = none)
    (htn : pickJ okEl "traderName" = none)
    (had : pickJ okEl "address" = none)
    (hta : pickJ okEl "traderAddress" = none)
    (h1 : pickJ okEl "traderNameMatch" = none)
    (h2 : pickJ okEl "traderAddressMatch" = none) :
    parseSOAP xml text = .ok
      { valid := b, countryCode := none, vatNumber := none,
        requestDate := none, name := "", address := "",
        traderNameMatch := none, traderAddressMatch := none } := by
  unfold parseSOAP
  rw [hloc]
  unfold interpretOk validOf nameOf addrSource
  simp only [hv, hscan, hcc, hvn, hrd, hnm, htn, had, hta, h1, h2,
    jsOrV, jsToString, truthyOpt]
  rfl

/-- Witness for the amended C6. -/
theorem interpreter_valid_fallback_defaults_witness :
    parseSOAP xmlRespEmpty textRespEmpty = .ok
      { valid := true, countryCode := none, vatNumber := none,
        requestDate := none, name := "", address := "",
        traderNameMatch := none, traderAddressMatch := none } :=
  interpreter_valid_fallback_defaults xmlRespEmpty (.obj .nil) textRespEmpty
    true rfl rfl (by decide) rfl rfl rfl rfl rfl rfl rfl rfl rfl

/-- Adjacent newlines in a tail. -/
theorem hasAdjNl_tail {c : Char} {rest : List Char}
    (h : hasAdjNl (c :: rest) = false) : hasAdjNl rest = false := by
  cases rest with
  | nil => rfl
  | cons d t =>
    unfold hasAdjNl at h
    rw [Bool.or_eq_false_iff] at h
    exact h.2

/-- The CR/LF collapse never produces two adjacent newlines when the
input has no carriage returns; moreover, after a newline was just
consumed, the output cannot start with a newline. -/
theorem collapseAux_no_adj (l : List Char) :
    ∀ prev : Option Char, l.all (fun c => c ≠ '\r') = true →
      hasAdjNl (collapseAux prev l) = false ∧
      (prev = some '\n' → (collapseAux prev l).head? ≠ some '\n') := by
  induction l with
  | nil =>
    intro prev hall
    exact ⟨rfl, fun _ h => by simp [collapseAux] at h⟩
  | cons c rest ih =>
    intro prev hall
    rw [List.all_cons, Bool.and_eq_true] at hall
    obtain ⟨hc, hrest⟩ := hall
    have hcr : c ≠ '\r' := by simpa using hc
    have hif1 : ¬(c = '\r' ∧ rest.head? = some '\n') := fun hcon => hcr hcon.1
    unfold collapseAux
    rw [if_neg hif1]
    by_cases h2 : c = '\n' ∧ prev = some '\n'
    · rw [if_pos h2]
      refine ⟨(ih (some '\n') hrest).1, fun _ => ?_⟩
      exact (ih (some '\n') hrest).2 rfl
    · rw [if_neg h2]
      have hout := ih (some c) hrest
      constructor
      · cases hout1 : collapseAux (some c) rest with
        | nil => rfl
        | cons d t =>
          unfold hasAdjNl
          rw [Bool.or_eq_false_iff]
          refine ⟨?_, by rw [← hout1]; exact hout.1⟩
          by_cases hcn : c = '\n'
          · have hd : d ≠ '\n' := by
              have := hout.2 (by rw [hcn])
              rw [hout1] at this
              intro hdn
              exact this (by rw [hdn]; rfl)
            simp [hd]
          · simp [hcn]
      · intro hprev
        have hcn : c ≠ '\n' := fun hcon => h2 ⟨hcon, hprev⟩
        simp [hcn]

/-- `dropWhile` preserves the absence of adjacent newlines. -/
theorem hasAdjNl_dropWhile (p : Char → Bool) (l : List Char)
    (h : hasAdjNl l = false) : hasAdjNl (l.dropWhile p) = false := by
  induction l with
  | nil => exact h
  | cons c rest ih =>
    rw [List.dropWhile_cons]
    by_cases hp : p c = true
    · rw [if_pos hp]
      exact ih (hasAdjNl_tail h)
    · rw [if_neg hp]
      exact h

/-- A nonempty `dropTrail` starts where the input starts. -/
theorem dropTrail_cons {p : Char → Bool} {l : List Char} {d : Char}
    {t : List Char} (h : dropTrail p l = d :: t) :
    ∃ t2, l = d :: t2 := by
  cases l with
  | nil => exact absurd h (by simp [dropTrail])
  | cons c rest =>
    unfold dropTrail at h
    dsimp only at h
    split at h
    · exact absurd h (by simp)
    · rw [List.cons.injEq] at h
      exact ⟨rest, by rw [h.1]⟩

/-- `dropTrail` preserves the absence of adjacent newlines. -/
theorem hasAdjNl_dropTrail (p : Char → Bool) (l : List Char)
    (h : hasAdjNl l = false) : hasAdjNl (dropTrail p l) = false := by
  induction l with
  | nil => exact h
  | cons c rest ih =>
    unfold dropTrail
    dsimp only
    split
    · rfl
    · cases hr : dropTrail p rest with
      | nil => rfl
      | cons d t =>
        unfold hasAdjNl
        rw [Bool.or_eq_false_iff]
        refine ⟨?_, by rw [← hr]; exact ih (hasAdjNl_tail h)⟩
        obtain ⟨t2, ht2⟩ := dropTrail_cons hr
        rw [ht2] at h
        unfold hasAdjNl at h
        rw [Bool.or_eq_false_iff] at h
        exact h.1

/-- `trimL` preserves the absence of adjacent newlines. -/
theorem hasAdjNl_trimL (l : List Char) (h : hasAdjNl l = false) :
    hasAdjNl (trimL l) = false :=
  hasAdjNl_dropTrail _ _ (hasAdjNl_dropWhile _ _ h)

/-- C9 (amended): the returned `address` is the extracted address (or
`traderAddress` fallback, or empty string) with every
optional-CR-plus-newline run `\r?\n+` collapsed to a single `\n` and
surrounding whitespace trimmed.  When the extracted address contains no
carriage return this leaves no two adjacent newlines; carriage-return
runs not followed by a newline, however, survive (see the
counterexample). -/
theorem interpreter_address_collapse (xml okEl : JVal) (text : String)
    (r : VatResult)
    (hloc : locateOk xml = .ok okEl)
    (hok : parseSOAP xml text = .ok r) :
    r.address = String.mk (trimL (collapseCRLF (addrSource okEl))) ∧
    ((addrSource okEl).all (fun c => c ≠ '\r') = true →
      hasAdjNl r.address.data = false) := by
  have hr : interpretOk okEl text = .ok r := by
    rw [← hok]
    unfold parseSOAP
    rw [hloc]
  unfold interpretOk at hr
  cases hvv : validOf okEl text with
  | error e =>
    rw [hvv] at hr
    exact Except.noConfusion hr
  | ok vb =>
    simp only [hvv] at hr
    cases hnm : nameOf okEl with
    | error e =>
      simp only [hnm] at hr
      exact Except.noConfusion hr
    | ok nm =>
      simp only [hnm, Except.ok.injEq] at hr
      constructor
      · rw [← hr]
      · intro hnocr
        rw [← hr]
        show hasAdjNl (trimL (collapseCRLF (addrSource okEl))) = false
        exact hasAdjNl_trimL _
          ((collapseAux_no_adj (addrSource okEl) none hnocr).1)

/-- Witness for the amended C9 on a CR-free address. -/
theorem interpreter_address_collapse_witness :
    parseSOAP xmlPlain "" = .ok resPlain ∧
    resPlain.address = String.mk (trimL (collapseCRLF (addrSource respPlain))) ∧
    hasAdjNl resPlain.address.data = false :=
  ⟨rfl,
   (interpreter_address_collapse xmlPlain respPlain "" resPlain rfl rfl).1,
   (interpreter_address_collapse xmlPlain respPlain "" resPlain rfl rfl).2
     (by decide)⟩

/-- C9 (counterexample): an address of `"A\r\rB"` — a run of two
carriage returns with no newline — is returned verbatim: the regex
`\r?\n+` never matches it, so a run of consecutive CR characters
survives in the output, contradicting the claim that no run of
consecutive newline/carriage-return characters survives. -/
theorem interpreter_address_cr_survives_cex :
    parseSOAP xmlAddrCR "" = .ok
      { valid := true, countryCode := some (.str "FR"),
        vatNumber := some (.str "40303265045"), requestDate := none,
        name := "ACME", address := "A\r\rB",
        traderNameMatch := none, traderAddressMatch := none } ∧
    hasAdjCRLF ("A\r\rB" : String).data = true :=
  ⟨rfl, by decide⟩

/-- `takeWhile (≠ ':')` stops at the appended colon. -/
theorem takeWhile_append_colon (xs ys : List Char) :
    (xs ++ ':' :: ys).takeWhile (fun c => c ≠ ':')
      = xs.takeWhile (fun c => c ≠ ':') := by
  induction xs with
  | nil => simp [List.takeWhile_cons]
  | cons x t ih =>
    rw [List.cons_append, List.takeWhile_cons, List.takeWhile_cons]
    by_cases hx : x = ':'
    · simp [hx]
    · have hd : (decide (x ≠ ':')) = true := by simp [hx]
      rw [hd]
      simp only [eq_self_iff_true, if_true]
      rw [ih]

/-- The segment after the last colon ignores everything before a
colon. -/
theorem afterLastColon_append (a b : List Char) :
    afterLastColon (a ++ ':' :: b) = afterLastColon b := by
  unfold afterLastColon
  rw [List.reverse_append, List.reverse_cons, List.append_assoc,
    List.singleton_append, takeWhile_append_colon]

/-- On a colon-free list, `afterLastColon` is the identity. -/
theorem afterLastColon_no_colon {l : List Char} (h : ':' ∉ l) :
    afterLastColon l = l := by
  unfold afterLastColon
  have : l.reverse.takeWhile (fun c => c ≠ ':') = l.reverse := by
    rw [List.takeWhile_eq_self_iff]
    intro a ha
    have : a ∈ l := List.mem_reverse.mp ha
    simp only [decide_eq_true_eq]
    intro hcon
    rw [hcon] at this
    exact h this
  rw [this, List.reverse_reverse]

/-- `tailLocal` coincides with `afterLastColon`. -/
theorem tailLocal_eq (l : List Char) : tailLocal l = afterLastColon l := by
  unfold tailLocal
  by_cases h : l.contains ':' = true
  · rw [if_pos h]
  · rw [if_neg h]
    have hmem : ':' ∉ l := by
      intro hcon
      exact h (List.elem_eq_true_of_mem hcon)
    rw [afterLastColon_no_colon hmem]

/-- Qualifying a key does not change its local name. -/
theorem tailLocal_qualified (p k : String) :
    tailLocal (lowerL (String.mk (p.data ++ ':' :: k.data)).data)
      = tailLocal (lowerL k.data) := by
  have hmap : lowerL (p.data ++ ':' :: k.data)
      = lowerL p.data ++ ':' :: lowerL k.data := by
    unfold lowerL
    rw [List.map_append, List.map_cons]
    rfl
  rw [show (String.mk (p.data ++ ':' :: k.data)).data
      = p.data ++ ':' :: k.data from rfl, hmap,
    tailLocal_eq, tailLocal_eq, afterLastColon_append]

/-- Qualification preserves truthiness. -/
theorem jsTruthy_qualify (p : String) (v : JVal) :
    jsTruthy (qualify p v) = jsTruthy v := by
  cases v <;> rfl

/-- Qualification preserves string coercion. -/
theorem jsToString_qualify (p : String) (v : JVal) :
    jsToString (qualify p v) = jsToString v := by
  cases v <;> rfl

/-- Qualification fixes leaves. -/
theorem qualify_leaf {p : String} {v : JVal} (h : isObjJ v = false) :
    qualify p v = v := by
  cases v
  · rfl
  · rfl
  · rfl
  · exact absurd h (by simp [isObjJ])

/-- Qualification and `Object.keys`. -/
theorem jkeys_qualify (p : String) (v : JVal) :
    jkeys (qualify p v) = qualifyF p (jkeys v) := by
  cases v <;> rfl

/-- `findChild` on a qualified field list finds the qualified value of
the same field. -/
theorem findTag_qualifyF (p : String) (t : List Char) :
    (fs : JFields) → findTag t (qualifyF p fs) = (findTag t fs).map (qualify p)
  | .nil => rfl
  | .cons k v rest => by
    unfold qualifyF findTag
    rw [tailLocal_qualified]
    by_cases h : tailLocal (lowerL k.data) = t
    · rw [if_pos h, if_pos h]
      rfl
    · rw [if_neg h, if_neg h]
      exact findTag_qualifyF p t rest

/-- For a colon-free tag the extra exact-key disjunct of `pick` is
subsumed by the local-name match, so `pick` and `findChild` agree. -/
theorem pickTag_eq_findTag {t : List Char} (ht : ':' ∉ t) :
    (fs : JFields) → pickTag t fs = findTag t fs
  | .nil => rfl
  | .cons k v rest => by
    unfold pickTag findTag
    by_cases hkl : lowerL k.data = t
    · have htt : tailLocal t = t := by
        rw [tailLocal_eq, afterLastColon_no_colon ht]
      simp [hkl, htt]
    · simp [hkl, pickTag_eq_findTag ht rest]

/-- `findChild` through qualification. -/
theorem findChildJ_qualify (p : String) (v : JVal) (tag : String) :
    findChildJ (qualify p v) tag = (findChildJ v tag).map (qualify p) := by
  unfold findChildJ
  rw [jkeys_qualify]
  exact findTag_qualifyF p _ (jkeys v)

/-- `pick` through qualification (colon-free tags). -/
theorem pickJ_qualify (p : String) (v : JVal) (tag : String)
    (ht : ':' ∉ lowerL tag.data) :
    pickJ (qualify p v) tag = (pickJ v tag).map (qualify p) := by
  unfold pickJ
  rw [jkeys_qualify, pickTag_eq_findTag ht, pickTag_eq_findTag ht]
  exact findTag_qualifyF p _ (jkeys v)

/-- Truthy filtering through qualification. -/
theorem truthyOpt_map_qualify (p : String) (o : Option JVal) :
    truthyOpt (o.map (qualify p)) = (truthyOpt o).map (qualify p) := by
  cases o with
  | none => rfl
  | some v =>
    unfold truthyOpt
    simp only [Option.map_some']
    rw [jsTruthy_qualify]
    by_cases h : jsTruthy v = true
    · rw [if_pos h, if_pos h]
      rfl
    · rw [if_neg h, if_neg h]
      rfl

/-- `||` against a value through qualification. -/
theorem jsOrV_map_qualify (p : String) (a : Option JVal) (b : JVal) :
    jsOrV (a.map (qualify p)) (qualify p b) = qualify p (jsOrV a b) := by
  cases a with
  | none => rfl
  | some v =>
    unfold jsOrV
    simp only [Option.map_some']
    rw [jsTruthy_qualify]
    by_cases h : jsTruthy v = true
    · rw [if_pos h, if_pos h]
    · rw [if_neg h, if_neg h]

/-- `||` of two lookups through qualification. -/
theorem jsOrO_map_qualify (p : String) (a b : Option JVal) :
    jsOrO (a.map (qualify p)) (b.map (qualify p)) = (jsOrO a b).map (qualify p) := by
  cases a with
  | none => rfl
  | some v =>
    unfold jsOrO
    simp only [Option.map_some']
    rw [jsTruthy_qualify]
    by_cases h : jsTruthy v = true
    · rw [if_pos h, if_pos h]
      rfl
    · rw [if_neg h, if_neg h]

/-- A qualified field list has no key named exactly `Envelope`. -/
theorem getKey_qualifyF (p : String) :
    (fs : JFields) → getKey "Envelope" (qualifyF p fs) = none
  | .nil => rfl
  | .cons k v rest => by
    unfold qualifyF getKey
    have hne : String.mk (p.data ++ ':' :: k.data) ≠ "Envelope" := by
      intro hcon
      have hmem : ':' ∈ (String.mk (p.data ++ ':' :: k.data)).data := by
        simp
      rw [hcon] at hmem
      exact absurd hmem (by decide)
    rw [if_neg hne]
    exact getKey_qualifyF p rest

/-- The fault payload commutes with qualification. -/
theorem faultValOf_qualify (p : String) (f : JVal) :
    faultValOf (qualify p f) = qualify p (faultValOf f) := by
  unfold faultValOf
  rw [pickJ_qualify p f "faultstring" (by decide),
    pickJ_qualify p f "faultcode" (by decide)]
  rw [show jsOrV ((pickJ f "faultcode").map (qualify p)) (JVal.str "SOAP Fault")
      = qualify p (jsOrV (pickJ f "faultcode") (.str "SOAP Fault"))
    from jsOrV_map_qualify p (pickJ f "faultcode") (.str "SOAP Fault")]
  exact jsOrV_map_qualify p (pickJ f "faultstring")
    (jsOrV (pickJ f "faultcode") (.str "SOAP Fault"))

/-- The thrown fault error is prefix-insensitive. -/
theorem faultErrOf_qualify (p : String) (f : JVal) :
    faultErrOf (qualify p f) = faultErrOf f := by
  unfold faultErrOf faultKeyOf faultMsgOf
  rw [faultValOf_qualify, jsToString_qualify]

/-- Body location through qualification (given a truthy envelope
child, the configuration of every real SOAP response). -/
theorem locateBody_qualify (p : String) (xml : JVal)
    (henv : ∃ v, findChildJ xml "envelope" = some v ∧ jsTruthy v = true) :
    locateBody (qualify p xml) =
      match locateBody xml with
      | .ok b => .ok (qualify p b)
      | .error e => .error e := by
  obtain ⟨v, hv, htv⟩ := henv
  have henv1 : jsOrV (findChildJ xml "envelope")
      (jsOrV (exactKeyJ xml "Envelope") xml) = v := by
    rw [hv]
    unfold jsOrV
    dsimp only
    rw [htv]
    simp
  have henv2 : jsOrV (findChildJ (qualify p xml) "envelope")
      (jsOrV (exactKeyJ (qualify p xml) "Envelope") (qualify p xml))
      = qualify p v := by
    rw [findChildJ_qualify, hv]
    simp only [Option.map_some']
    unfold jsOrV
    dsimp only
    rw [jsTruthy_qualify, htv]
    simp
  unfold locateBody
  dsimp only
  rw [henv1, henv2, findChildJ_qualify, truthyOpt_map_qualify]
  cases truthyOpt (findChildJ v "body") with
  | none => rfl
  | some b => rfl

/-- Response-element location through qualification. -/
theorem locateOk_qualify (p : String) (xml : JVal)
    (henv : ∃ v, findChildJ xml "envelope" = some v ∧ jsTruthy v = true) :
    locateOk (qualify p xml) =
      match locateOk xml with
      | .ok okEl => .ok (qualify p okEl)
      | .error e => .error e := by
  unfold locateOk
  rw [locateBody_qualify p xml henv]
  cases hb : locateBody xml with
  | error e => rfl
  | ok body =>
    dsimp only
    rw [findChildJ_qualify, truthyOpt_map_qualify]
    cases hf : truthyOpt (findChildJ body "fault") with
    | some f =>
      simp only [Option.map_some']
      rw [faultErrOf_qualify]
    | none =>
      simp only [Option.map_none']
      rw [findChildJ_qualify, findChildJ_qualify, jsOrO_map_qualify,
        truthyOpt_map_qualify]
      cases truthyOpt (jsOrO (findChildJ body "checkVatResponse")
          (findChildJ body "checkVatApproxResponse")) with
      | none => rfl
      | some okEl => rfl

/-- The `valid` resolution is prefix-insensitive. -/
theorem validOf_qualify (p : String) (okEl : JVal) (text : String) :
    validOf (qualify p okEl) text = validOf okEl text := by
  unfold validOf
  rw [pickJ_qualify p okEl "valid" (by decide)]
  cases hp : pickJ okEl "valid" with
  | none => rfl
  | some v =>
    simp only [Option.map_some']
    cases v with
    | str s => rfl
    | num n => rfl
    | bool b => rfl
    | obj fs => rfl

/-- The `name` extraction is prefix-insensitive. -/
theorem nameOf_qualify (p : String) (okEl : JVal) :
    nameOf (qualify p okEl) = nameOf okEl := by
  unfold nameOf
  rw [pickJ_qualify p okEl "name" (by decide),
    pickJ_qualify p okEl "traderName" (by decide)]
  rw [show jsOrV ((pickJ okEl "traderName").map (qualify p)) (JVal.str "")
      = qualify p (jsOrV (pickJ okEl "traderName") (.str ""))
    from jsOrV_map_qualify p (pickJ okEl "traderName") (.str "")]
  rw [show jsOrV ((pickJ okEl "name").map (qualify p))
        (qualify p (jsOrV (pickJ okEl "traderName") (.str "")))
      = qualify p (jsOrV (pickJ okEl "name")
        (jsOrV (pickJ okEl "traderName") (.str "")))
    from jsOrV_map_qualify p (pickJ okEl "name")
      (jsOrV (pickJ okEl "traderName") (.str ""))]
  cases jsOrV (pickJ okEl "name") (jsOrV (pickJ okEl "traderName") (.str "")) with
  | str s => rfl
  | num n => rfl
  | bool b => rfl
  | obj fs => rfl

/-- The address source string is prefix-insensitive. -/
theorem addrSource_qualify (p : String) (okEl : JVal) :
    addrSource (qualify p okEl) = addrSource okEl := by
  unfold addrSource
  rw [pickJ_qualify p okEl "address" (by decide),
    pickJ_qualify p okEl "traderAddress" (by decide)]
  rw [show jsOrV ((pickJ okEl "traderAddress").map (qualify p)) (JVal.str "")
      = qualify p (jsOrV (pickJ okEl "traderAddress") (.str ""))
    from jsOrV_map_qualify p (pickJ okEl "traderAddress") (.str "")]
  rw [show jsOrV ((pickJ okEl "address").map (qualify p))
        (qualify p (jsOrV (pickJ okEl "traderAddress") (.str "")))
      = qualify p (jsOrV (pickJ okEl "address")
        (jsOrV (pickJ okEl "traderAddress") (.str "")))
    from jsOrV_map_qualify p (pickJ okEl "address")
      (jsOrV (pickJ okEl "traderAddress") (.str ""))]
  rw [jsToString_qualify]

/-- A `pick` from a leaf-only field list yields a leaf. -/
theorem pickTag_leaf {t : List Char} :
    (fs : JFields) → ∀ (v : JVal), leafOnly fs = true →
      pickTag t fs = some v → isObjJ v = false
  | .nil => fun v hflat h => Option.noConfusion h
  | .cons k w rest => fun v hflat h => by
    unfold leafOnly at hflat
    rw [Bool.and_eq_true] at hflat
    unfold pickTag at h
    split at h
    · rw [Option.some.injEq] at h
      rw [← h]
      simpa using hflat.1
    · exact pickTag_leaf rest v hflat.2 h

/-- Truthy-filtered picks of leaf-only elements are untouched by
qualification. -/
theorem truthyOpt_pickJ_qualify (p : String) (okEl : JVal) (tag : String)
    (ht : ':' ∉ lowerL tag.data)
    (hflat : leafOnly (jkeys okEl) = true) :
    truthyOpt (pickJ (qualify p okEl) tag) = truthyOpt (pickJ okEl tag) := by
  rw [pickJ_qualify p okEl tag ht, truthyOpt_map_qualify]
  cases hp : truthyOpt (pickJ okEl tag) with
  | none => rfl
  | some v =>
    simp only [Option.map_some']
    have hpick : pickJ okEl tag = some v := (truthyOpt_eq_some hp).1
    have hleaf : isObjJ v = false := pickTag_leaf (jkeys okEl) v hflat hpick
    rw [qualify_leaf hleaf]

/-- Field extraction from a leaf-only response element is
prefix-insensitive. -/
theorem interpretOk_qualify (p : String) (okEl : JVal) (text : String)
    (hflat : leafOnly (jkeys okEl) = true) :
    interpretOk (qualify p okEl) text = interpretOk okEl text := by
  unfold interpretOk
  rw [validOf_qualify, nameOf_qualify, addrSource_qualify,
    truthyOpt_pickJ_qualify p okEl "countryCode" (by decide) hflat,
    truthyOpt_pickJ_qualify p okEl "vatNumber" (by decide) hflat,
    truthyOpt_pickJ_qualify p okEl "requestDate" (by decide) hflat,
    truthyOpt_pickJ_qualify p okEl "traderNameMatch" (by decide) hflat,
    truthyOpt_pickJ_qualify p okEl "traderAddressMatch" (by decide) hflat]

/-- C8: interpretation is namespace-prefix-agnostic.  Renaming every
element key `k` of a parsed response to `p:k` — for any prefix `p`, in
particular `soap`, `S` and `ns2` — leaves the interpreted result (and
any raised error) unchanged, provided the tree has a truthy envelope
child and the response element carries leaf fields, as every
well-formed response payload does.  Element lookup compares only the
case-lowered local tag name behind the last colon. -/
theorem interpreter_prefix_agnostic (p : String) (xml : JVal) (text : String)
    (henv : ∃ v, findChildJ xml "envelope" = some v ∧ jsTruthy v = true)
    (hflat : ∀ okEl, locateOk xml = .ok okEl → leafOnly (jkeys okEl) = true) :
    parseSOAP (qualify p xml) text = parseSOAP xml text := by
  unfold parseSOAP
  rw [locateOk_qualify p xml henv]
  cases hloc : locateOk xml with
  | error e => rfl
  | ok okEl => exact interpretOk_qualify p okEl text (hflat okEl hloc)

/-- Witness for C8: the plain response interpreted identically under
`soap:`, `S:` and `ns2:` wrappings. -/
theorem interpreter_prefix_agnostic_witness :
    parseSOAP (qualify "soap" xmlPlain) "" = parseSOAP xmlPlain "" ∧
    parseSOAP (qualify "S" xmlPlain) "" = parseSOAP xmlPlain "" ∧
    parseSOAP (qualify "ns2" xmlPlain) "" = parseSOAP xmlPlain "" := by
  have hflat : ∀ okEl, locateOk xmlPlain = .ok okEl →
      leafOnly (jkeys okEl) = true := by
    intro okEl h
    have h2 : (Except.ok respPlain : Except SoapErr JVal) = .ok okEl := h
    injection h2 with h3
    rw [← h3]
    decide
  exact ⟨interpreter_prefix_agnostic "soap" xmlPlain "" ⟨_, rfl, rfl⟩ hflat,
    interpreter_prefix_agnostic "S" xmlPlain "" ⟨_, rfl, rfl⟩ hflat,
    interpreter_prefix_agnostic "ns2" xmlPlain "" ⟨_, rfl, rfl⟩ hflat⟩
